import Mathlib

/-!
Verification of the Science in Motion animation scripts.

Each script performs a small numerical computation and hands the samples to a
plotting/animation loop.  This file embeds those computations (and the small
amount of control flow around saving the animations) as Lean definitions and
proves the stated properties about them.

Floating point arithmetic is modelled exactly over `ℚ` (for the iterative
cores) and `ℝ` (for the transcendental formulas).
-/

namespace ScienceInMotion

/-! ### numpy.linspace

Sample `i` of `numpy.linspace(a, b, n)` is `a + i * (b - a) / (n - 1)`; for
`n ≤ 1` the single sample (if any) is `a`. -/

/-- Sample `i` of `numpy.linspace(a, b, n)`. -/
def linspace (a b : ℚ) (n i : ℕ) : ℚ :=
  if n ≤ 1 then a else a + i * (b - a) / ((n : ℚ) - 1)

/-! ### Mandelbrot zoom (`src/simulations/mandelbrot_zoom.py`)

The per-pixel escape-time iteration of `mandelbrot_numpy`.  Complex numbers
are pairs of rationals, mirroring the exact arithmetic of the source loop. -/

/-- Complex number with rational components, as used by the pixel loop. -/
structure QC where
  re : ℚ
  im : ℚ
deriving DecidableEq

/-- Complex addition. -/
def QC.add (a b : QC) : QC := ⟨a.re + b.re, a.im + b.im⟩

/-- Complex multiplication. -/
def QC.mul (a b : QC) : QC := ⟨a.re * b.re - a.im * b.im, a.re * b.im + a.im * b.re⟩

/-- Squared modulus `z.real*z.real + z.imag*z.imag`, the escape test quantity. -/
def QC.normSq (a : QC) : ℚ := a.re * a.re + a.im * a.im

/-- Modulus `abs(z)` of a pixel-loop complex number, as a real. -/
noncomputable def QC.cabs (z : QC) : ℝ := Real.sqrt ((z.re : ℝ) ^ 2 + (z.im : ℝ) ^ 2)

/-- Raw outcome of the pixel loop of `mandelbrot_numpy`: either the loop ran
`max_iters` times without the escape test firing (the `result` entry keeps its
zero initialization), or the loop broke at step `k` with iterate `z`. -/
inductive PixelResult where
  | interior : PixelResult
  | escaped (k : ℕ) (z : QC) : PixelResult
deriving DecidableEq

/-- Smooth coloring value `k + 1 - log(log(m))/log(2)` stored at escape,
where `m` is the modulus of the escaping iterate. -/
noncomputable def smoothVal (k : ℕ) (m : ℝ) : ℝ :=
  (k : ℝ) + 1 - Real.log (Real.log m) / Real.log 2

/-- Float stored in the `result` array for a pixel: `0.0` for a pixel whose
loop never escaped, and the smooth coloring value at escape. -/
noncomputable def PixelResult.value : PixelResult → ℝ
  | .interior => 0
  | .escaped k z => smoothVal k z.cabs

/-- Inner loop of `mandelbrot_numpy`: starting from iterate `z` at loop index
`k` with `fuel` iterations remaining, repeatedly set `z := z*z + c` and break
at the first iterate with `normSq ≥ 4`. -/
def mandelLoop (c : QC) : QC → ℕ → ℕ → PixelResult
  | _, _, 0 => .interior
  | z, k, fuel + 1 =>
    let z2 := (z.mul z).add c
    if 4 ≤ z2.normSq then .escaped k z2
    else mandelLoop c z2 (k + 1) fuel

/-- Grid point `c = complex(x[j], y[i])` used by `mandelbrot_numpy` for pixel
`(i, j)`: `x`, `y` are `linspace` samplings of the view rectangle centered at
`(center_x, center_y)` with width `zoom_width` and height
`zoom_width * h / w`. -/
def mandelC (h w : ℕ) (centerX centerY zoomWidth : ℚ) (i j : ℕ) : QC :=
  let zoomHeight := zoomWidth * (h : ℚ) / (w : ℚ)
  let xMin := centerX - zoomWidth / 2
  let xMax := centerX + zoomWidth / 2
  let yMin := centerY - zoomHeight / 2
  let yMax := centerY + zoomHeight / 2
  ⟨linspace xMin xMax w j, linspace yMin yMax h i⟩

/-- Pixel `(i, j)` of `mandelbrot_numpy(h, w, max_iters, center_x, center_y,
zoom_width)`: run the escape loop from `z = 0` at the grid point of the pixel. -/
def mandelbrot_numpy (h w maxIters : ℕ) (centerX centerY zoomWidth : ℚ)
    (i j : ℕ) : PixelResult :=
  mandelLoop (mandelC h w centerX centerY zoomWidth i j) ⟨0, 0⟩ 0 maxIters

/-- Mathematical orbit of `0` under `z ↦ z*z + c`. -/
def morbit (c : QC) : ℕ → QC
  | 0 => ⟨0, 0⟩
  | n + 1 => ((morbit c n).mul (morbit c n)).add c

/-! ### Lorenz attractor (`src/simulations/lorenz-attractor.py`)

Explicit Euler integration of the Lorenz system with the script's constants. -/

/-- Lorenz parameter `sigma = 10.0`. -/
def sigmaL : ℚ := 10

/-- Lorenz parameter `rho = 28.0`. -/
def rhoL : ℚ := 28

/-- Lorenz parameter `beta = 8.0 / 3.0`. -/
def betaL : ℚ := 8 / 3

/-- Euler time step `dt = 0.01`. -/
def dtL : ℚ := 1 / 100

/-- Number of integration steps `num_steps = 8000`. -/
def numSteps : ℕ := 8000

/-- Euler iteration of the Lorenz equations from the initial point
`(0.1, 0.0, 0.0)`:  step `i+1` applies the script's update
`x += sigma*(y-x)*dt`, `y += (x*(rho-z)-y)*dt`, `z += (x*y-beta*z)*dt`. -/
def lorenzTraj : ℕ → ℚ × ℚ × ℚ
  | 0 => (1 / 10, 0, 0)
  | i + 1 =>
    let p := lorenzTraj i
    (p.1 + sigmaL * (p.2.1 - p.1) * dtL,
     p.2.1 + (p.1 * (rhoL - p.2.2) - p.2.1) * dtL,
     p.2.2 + (p.1 * p.2.1 - betaL * p.2.2) * dtL)

/-- Entry `i` of the `xs` array. -/
def xs (i : ℕ) : ℚ := (lorenzTraj i).1

/-- Entry `i` of the `ys` array. -/
def ys (i : ℕ) : ℚ := (lorenzTraj i).2.1

/-- Entry `i` of the `zs` array. -/
def zs (i : ℕ) : ℚ := (lorenzTraj i).2.2

/-- The `xs` array of length `num_steps`. -/
def xsArr : List ℚ := (List.range numSteps).map xs

/-- The `ys` array of length `num_steps`. -/
def ysArr : List ℚ := (List.range numSteps).map ys

/-- The `zs` array of length `num_steps`. -/
def zsArr : List ℚ := (List.range numSteps).map zs

/-! ### Double pendulum (`double_pendulum_tiktok.py`)

The script integrates with `scipy.integrate.odeint` (library code, not part of
this repository); the resulting angle columns `theta1`, `theta2` enter the
Cartesian conversion as functions of the sample index. -/

/-- Rod length `L1 = 1.0`. -/
noncomputable def pendL1 : ℝ := 1

/-- Rod length `L2 = 1.0`. -/
noncomputable def pendL2 : ℝ := 1

/-- Frame count `frames = int(t_max * fps)` with `t_max = 30.0`, `fps = 30`. -/
def pendFrames : ℕ := (Int.floor ((30 : ℚ) * 30)).toNat

/-- Time grid `t = np.linspace(0, t_max, frames)`. -/
def tArr : List ℚ := (List.range pendFrames).map (linspace 0 30 pendFrames)

/-- Array `x1 = L1 * np.sin(theta1)`. -/
noncomputable def pend_x1 (theta1 : ℕ → ℝ) : List ℝ :=
  (List.range pendFrames).map fun i => pendL1 * Real.sin (theta1 i)

/-- Array `y1 = -L1 * np.cos(theta1)`. -/
noncomputable def pend_y1 (theta1 : ℕ → ℝ) : List ℝ :=
  (List.range pendFrames).map fun i => -pendL1 * Real.cos (theta1 i)

/-- Array `x2 = x1 + L2 * np.sin(theta2)`. -/
noncomputable def pend_x2 (theta1 theta2 : ℕ → ℝ) : List ℝ :=
  (List.range pendFrames).map fun i =>
    pendL1 * Real.sin (theta1 i) + pendL2 * Real.sin (theta2 i)

/-- Array `y2 = y1 - L2 * np.cos(theta2)`. -/
noncomputable def pend_y2 (theta1 theta2 : ℕ → ℝ) : List ℝ :=
  (List.range pendFrames).map fun i =>
    -pendL1 * Real.cos (theta1 i) - pendL2 * Real.cos (theta2 i)

/-! ### Frame counts of the generators

Each generator sets `frames = fps * duration` from its hardcoded constants
(the double pendulum uses `int(t_max * fps)` instead). -/

/-- Mandelbrot zoom: `fps = 30`. -/
def mandelFps : ℕ := 30

/-- Mandelbrot zoom: `duration = 30`. -/
def mandelDuration : ℕ := 30

/-- Mandelbrot zoom: `frames = fps * duration`. -/
def mandelFrames : ℕ := mandelFps * mandelDuration

/-- Fourier series: `fps = 30`. -/
def fourierFps : ℕ := 30

/-- Fourier series: `duration = 30`. -/
def fourierDuration : ℕ := 30

/-- Fourier series: `frames = fps * duration`. -/
def fourierFrames : ℕ := fourierFps * fourierDuration

/-- Sine circle trace: `fps = 60`. -/
def sineFps : ℕ := 60

/-- Sine circle trace: `duration = 15`. -/
def sineDuration : ℕ := 15

/-- Sine circle trace: `frames = fps * duration`. -/
def sineFrames : ℕ := sineFps * sineDuration

/-- Lorenz attractor: `fps = 30`. -/
def lorenzFps : ℕ := 30

/-- Lorenz attractor: `duration = 30`. -/
def lorenzDuration : ℕ := 30

/-- Lorenz attractor: `frames = fps * duration`. -/
def lorenzFrames : ℕ := lorenzFps * lorenzDuration

/-- Wave function collapse: `fps = 30`. -/
def waveFps : ℕ := 30

/-- Wave function collapse: `duration = 30`. -/
def waveDuration : ℕ := 30

/-- Wave function collapse: `frames = fps * duration`. -/
def waveFrames : ℕ := waveFps * waveDuration

/-- Trig challenge: `fps = 30`. -/
def trigChallengeFps : ℕ := 30

/-- Trig challenge: `duration = 30`. -/
def trigChallengeDuration : ℕ := 30

/-- Trig challenge: `frames = fps * duration`. -/
def trigChallengeFrames : ℕ := trigChallengeFps * trigChallengeDuration

/-- Sine/cosine circle trace: `fps = 60`. -/
def sineCosineFps : ℕ := 60

/-- Sine/cosine circle trace: `duration = 15`. -/
def sineCosineDuration : ℕ := 15

/-- Sine/cosine circle trace: `frames = fps * duration`. -/
def sineCosineFrames : ℕ := sineCosineFps * sineCosineDuration

/-- Trig functions circle trace: `fps = 60`. -/
def trigFunctionsFps : ℕ := 60

/-- Trig functions circle trace: `duration = 15`. -/
def trigFunctionsDuration : ℕ := 15

/-- Trig functions circle trace: `frames = fps * duration`. -/
def trigFunctionsFrames : ℕ := trigFunctionsFps * trigFunctionsDuration

/-- Advanced trig functions trace: `fps = 60`. -/
def advancedTrigFps : ℕ := 60

/-- Advanced trig functions trace: `duration = 15`. -/
def advancedTrigDuration : ℕ := 15

/-- Advanced trig functions trace: `frames = fps * duration`. -/
def advancedTrigFrames : ℕ := advancedTrigFps * advancedTrigDuration

/-- Projectile angle challenge: `fps = 30`. -/
def projectileFps : ℕ := 30

/-- Projectile angle challenge: `duration = 10`. -/
def projectileDuration : ℕ := 10

/-- Projectile angle challenge: `frames = fps * duration`. -/
def projectileFrames : ℕ := projectileFps * projectileDuration

/-- Triangle angle challenge: `fps = 30`. -/
def triangleFps : ℕ := 30

/-- Triangle angle challenge: `duration = 15`. -/
def triangleDuration : ℕ := 15

/-- Triangle angle challenge: `frames = fps * duration`. -/
def triangleFrames : ℕ := triangleFps * triangleDuration

/-- Hyperbolic paraboloid: `frames = 180`, hardcoded for a full rotation.
This script declares no `fps`/`duration` variables at all (the `fps=30` at
save time is only an encoder argument), so it has no `fps * duration`
expression to compare against. -/
def hyperbolicFrames : ℕ := 180

/-! ### Fourier series (`src/simulations/fourier_series.py`)

The square-wave Fourier partial sum and the exact square wave. -/

/-- Term `n` of the square-wave series:
`4/(pi * (2n-1)) * sin((2n-1) * x)`. -/
noncomputable def fourier_term (n : ℕ) (x : ℝ) : ℝ :=
  4 / (Real.pi * (2 * (n : ℝ) - 1)) * Real.sin ((2 * (n : ℝ) - 1) * x)

/-- `fourier_approx(x, n_terms)`: starting from a zero accumulator, add
`fourier_term(n, x)` for `n = 1, …, n_terms` in loop order. -/
noncomputable def fourier_approx (x : ℝ) : ℕ → ℝ
  | 0 => 0
  | n + 1 => fourier_approx x n + fourier_term (n + 1) x

/-- Python's float modulo `a % b` (sign of the divisor): `a - b * ⌊a / b⌋`. -/
noncomputable def pymod (a b : ℝ) : ℝ := a - b * ⌊a / b⌋

/-- Per-sample value of `square_wave`: `1` where `x % (2*pi) < pi`, else `-1`. -/
noncomputable def square_wave (x : ℝ) : ℝ :=
  if pymod x (2 * Real.pi) < Real.pi then 1 else -1

/-! ### CLI dispatch (`examples/generate_animations.py`) -/

/-- A call to one of the generator functions, with its arguments. -/
inductive Invocation where
  | pendulum (output : String)
  | lorenz (output : String)
  | mandelbrot (output : String)
  | quantum (output : String)
  | fourier (output : String) (terms : ℕ)
  | trig (output : String)
deriving DecidableEq

/-- Parsed command line arguments of `examples/generate_animations.py`. -/
structure Args where
  pendulum : Bool
  lorenz : Bool
  mandelbrot : Bool
  quantum : Bool
  fourier : Bool
  trig : Bool
  all : Bool
  output : String
  terms : ℕ

/-- Generator calls made by `main` after the help check, in source order:
each `if args.all or args.<flag>:` block contributes its call. -/
def dispatch (a : Args) : List Invocation :=
  (if a.all || a.pendulum then [Invocation.pendulum a.output] else []) ++
  (if a.all || a.lorenz then [Invocation.lorenz a.output] else []) ++
  (if a.all || a.mandelbrot then [Invocation.mandelbrot a.output] else []) ++
  (if a.all || a.quantum then [Invocation.quantum a.output] else []) ++
  (if a.all || a.fourier then [Invocation.fourier a.output a.terms] else []) ++
  (if a.all || a.trig then [Invocation.trig a.output] else [])

/-- Result of a run of `main`: print help and return, or run some generators. -/
inductive CLIResult where
  | help : CLIResult
  | ran (calls : List Invocation) : CLIResult
deriving DecidableEq

/-- The `any([...])` selection test of `main`. -/
def anyFlag (a : Args) : Bool :=
  a.pendulum || a.lorenz || a.mandelbrot || a.quantum || a.fourier || a.trig || a.all

/-- Control flow of `main`: with no selection flag at all it prints help and
returns; otherwise it runs the dispatched generators. -/
def cliMain (a : Args) : CLIResult :=
  if !anyFlag a then CLIResult.help else CLIResult.ran (dispatch a)

/-- Output directory an invocation was called with. -/
def Invocation.outputDir : Invocation → String
  | .pendulum o => o
  | .lorenz o => o
  | .mandelbrot o => o
  | .quantum o => o
  | .fourier o _ => o
  | .trig o => o

/-! ### Saving the animation: codec fallback control flow

Outcome of each generator's save section, as a function of whether the
FFMpeg encoder is available (its absence raises the error the `try/except`
blocks catch) and, for the two-stage generators, whether the pillow GIF
writer succeeds.  A generator without a `try/except` lets the exception
propagate and the process terminates (`crash`). -/

/-- What a generator's save section produced. -/
inductive SaveOutcome where
  | mp4 : SaveOutcome
  | gif : SaveOutcome
  | png : SaveOutcome
  | crash : SaveOutcome
deriving DecidableEq

/-- `fourier_series.py`: `try` MP4, `except (RuntimeError, FileNotFoundError)`
save GIF with the pillow writer. -/
def fourierSave (ffmpeg : Bool) : SaveOutcome :=
  if ffmpeg then .mp4 else .gif

/-- `wave_function_collapse.py`: `try` MP4, `except FileNotFoundError` save
GIF with the pillow writer. -/
def waveSave (ffmpeg : Bool) : SaveOutcome :=
  if ffmpeg then .mp4 else .gif

/-- `trig_challenge.py`: `try` MP4, `except` save GIF. -/
def trigChallengeSave (ffmpeg : Bool) : SaveOutcome :=
  if ffmpeg then .mp4 else .gif

/-- `sine_circle_trace.py`: `try` MP4, `except` save GIF. -/
def sineCircleSave (ffmpeg : Bool) : SaveOutcome :=
  if ffmpeg then .mp4 else .gif

/-- `sine_cosine_circle_trace.py`: `try` MP4, `except` save GIF. -/
def sineCosineSave (ffmpeg : Bool) : SaveOutcome :=
  if ffmpeg then .mp4 else .gif

/-- `trig_functions_circle_trace.py`: `try` MP4, `except` save GIF. -/
def trigFunctionsSave (ffmpeg : Bool) : SaveOutcome :=
  if ffmpeg then .mp4 else .gif

/-- `advanced_trig_functions_trace.py`: `try` MP4, `except` save GIF. -/
def advancedTrigSave (ffmpeg : Bool) : SaveOutcome :=
  if ffmpeg then .mp4 else .gif

/-- `mandelbrot_zoom.py` lines 232–238: `anim.save` with the FFMpeg writer and
no `try/except`; an unavailable encoder raises and terminates the process. -/
def mandelbrotSave (ffmpeg : Bool) : SaveOutcome :=
  if ffmpeg then .mp4 else .crash

/-- `lorenz-attractor.py`: `ani.save` with the FFMpeg writer, no `try/except`. -/
def lorenzSave (ffmpeg : Bool) : SaveOutcome :=
  if ffmpeg then .mp4 else .crash

/-- `double_pendulum_tiktok.py`: `ani.save(..., writer="ffmpeg", ...)`, no
`try/except`. -/
def pendulumSave (ffmpeg : Bool) : SaveOutcome :=
  if ffmpeg then .mp4 else .crash

/-- `hyperbolic_paraboloid.py`: `ani.save` with the FFMpeg writer, no
`try/except`. -/
def hyperbolicSave (ffmpeg : Bool) : SaveOutcome :=
  if ffmpeg then .mp4 else .crash

/-- `projectile_angle_challenge.py`: `try` MP4, `except Exception` then `try`
GIF, `except Exception` save a static PNG. -/
def projectileSave (ffmpeg pillow : Bool) : SaveOutcome :=
  if ffmpeg then .mp4 else if pillow then .gif else .png

/-- `triangle_angle_challenge.py`: `try` MP4, `except Exception` then `try`
GIF, `except Exception` save a static PNG. -/
def triangleSave (ffmpeg pillow : Bool) : SaveOutcome :=
  if ffmpeg then .mp4 else if pillow then .gif else .png

/-! ### Output directory creation (`os.makedirs(..., exist_ok=True)`)

The filesystem is modelled as the set of existing directories; writes are
recorded as an operation trace. -/

/-- One filesystem operation performed by a run. -/
inductive FSOp where
  | mkdir (d : String)
  | writeFile (path : String)
deriving DecidableEq

/-- `os.path.join(d, f)` for a directory without trailing separator. -/
def pathJoin (d f : String) : String := d ++ "/" ++ f

/-- Effect of `os.makedirs(d, exist_ok=True)` on the set of existing
directories: create `d` if missing; never raises. -/
def makedirs (d : String) (s : Finset String) : Finset String := insert d s

/-- Filesystem trace of a generator's save section: `os.makedirs(output_dir,
exist_ok=True)` first, then the write of the output file. -/
def genSaveTrace (out fileName : String) : List FSOp :=
  [FSOp.mkdir out, FSOp.writeFile (pathJoin out fileName)]

/-- Filesystem trace of `create_fourier_visualization` (lines 273–290):
`makedirs` then the MP4 write, or the GIF write on fallback. -/
def fourierSaveTrace (out : String) (ffmpeg : Bool) : List FSOp :=
  [FSOp.mkdir out,
   FSOp.writeFile (pathJoin out
     (if ffmpeg then "fourier_series.mp4" else "fourier_series.gif"))]

/-- Filesystem trace of `create_mandelbrot_animation` (lines 229–238):
`makedirs` then the MP4 write. -/
def mandelbrotSaveTrace (out : String) : List FSOp :=
  [FSOp.mkdir out, FSOp.writeFile (pathJoin out "mandelbrot_zoom.mp4")]

/-- Filesystem trace of a CLI run (lines 50–76): `os.makedirs(args.output,
exist_ok=True)` once, then each dispatched generator's own save trace, with
the generator's output file name abstracted by `fileOf`. -/
def cliTrace (a : Args) (fileOf : Invocation → String) : List FSOp :=
  FSOp.mkdir a.output ::
    (dispatch a).flatMap fun c => genSaveTrace c.outputDir (fileOf c)

/-! ### Wave function collapse (`src/simulations/wave_function_collapse.py`)

The closure `generate_superposition` builds a weighted, phase-rotated sum of
the harmonic oscillator eigenstates sampled on the grid and divides by its
discrete L² norm.  The environment of the closure (the sampled `states`) is
passed explicitly. -/

/-- Grid resolution `n_points = 500`. -/
def nPoints : ℕ := 500

/-- Domain bound `x_min = -6`. -/
noncomputable def wxMin : ℝ := -6

/-- Domain bound `x_max = 6`. -/
noncomputable def wxMax : ℝ := 6

/-- Highest eigenstate index `max_n = 6`. -/
def maxN : ℕ := 6

/-- The weight list `[0.5, 0.5, 0.4, 0.3, 0.2, 0.1, 0.05]`. -/
noncomputable def wfWeights : List ℝ := [0.5, 0.5, 0.4, 0.3, 0.2, 0.1, 0.05]

/-- `weights[n]` (out-of-range reads do not occur for `n ≤ max_n`). -/
noncomputable def wfWeight (n : ℕ) : ℝ := wfWeights.getD n 0

/-- `energies[n] = n + 0.5`. -/
noncomputable def wfEnergy (n : ℕ) : ℝ := (n : ℝ) + 0.5

/-- Physicists' Hermite polynomial `scipy.special.hermite(n)` evaluated at
`x`, via the standard recurrence. -/
noncomputable def hermiteH : ℕ → ℝ → ℝ
  | 0, _ => 1
  | 1, x => 2 * x
  | n + 2, x => 2 * x * hermiteH (n + 1) x - 2 * ((n : ℝ) + 1) * hermiteH n x

/-- The script's `psi_n`: normalized `n`-th harmonic oscillator eigenstate. -/
noncomputable def psi_n (n : ℕ) (x : ℝ) : ℝ :=
  1 / Real.sqrt (2 ^ n * (n.factorial : ℝ) * Real.sqrt Real.pi) *
    hermiteH n x * Real.exp (-x ^ 2 / 2)

/-- Grid sample `x[i]` of `np.linspace(x_min, x_max, n_points)`. -/
noncomputable def xGrid (i : ℕ) : ℝ := ((linspace (-6) 6 nPoints i : ℚ) : ℝ)

/-- The sampled eigenstates `states[n][i] = psi_n(n, x)[i]` captured by the
closure. -/
noncomputable def statesHO (n i : ℕ) : ℂ := (psi_n n (xGrid i) : ℝ)

/-- Weight given to state `n`: boosted towards `1` for the collapse target and
damped for the other states while a collapse is in progress. -/
noncomputable def psiWeight (collapseStart : Option ℝ) (collapseTarget : Option ℕ)
    (collapseProgress : ℝ) (n : ℕ) : ℝ :=
  match collapseStart with
  | some _ =>
    if collapseTarget = some n then
      wfWeight n * (1 - collapseProgress) + collapseProgress
    else wfWeight n * (1 - collapseProgress)
  | none => wfWeight n

/-- The accumulated superposition before normalization:
`psi += weight * exp(-1j*energies[n]*t) * states[n]` for `n = 0, …, max_n`. -/
noncomputable def psiRaw (states : ℕ → Fin nPoints → ℂ) (t : ℝ)
    (collapseStart : Option ℝ) (collapseTarget : Option ℕ)
    (collapseProgress : ℝ) (i : Fin nPoints) : ℂ :=
  ∑ n ∈ Finset.range (maxN + 1),
    (psiWeight collapseStart collapseTarget collapseProgress n : ℂ) *
      Complex.exp (-Complex.I * (wfEnergy n : ℂ) * (t : ℂ)) * states n i

/-- The normalization constant
`norm = sqrt(sum(abs(psi)**2) * (x_max - x_min) / n_points)`. -/
noncomputable def psiNorm (states : ℕ → Fin nPoints → ℂ) (t : ℝ)
    (collapseStart : Option ℝ) (collapseTarget : Option ℕ)
    (collapseProgress : ℝ) : ℝ :=
  Real.sqrt ((∑ i : Fin nPoints,
      Complex.abs (psiRaw states t collapseStart collapseTarget collapseProgress i) ^ 2) *
    (wxMax - wxMin) / (nPoints : ℝ))

/-- The returned wave function `psi / norm`. -/
noncomputable def generate_superposition (states : ℕ → Fin nPoints → ℂ) (t : ℝ)
    (collapseStart : Option ℝ) (collapseTarget : Option ℕ)
    (collapseProgress : ℝ) (i : Fin nPoints) : ℂ :=
  psiRaw states t collapseStart collapseTarget collapseProgress i /
    (psiNorm states t collapseStart collapseTarget collapseProgress : ℂ)

lemma morbit_succ (c : QC) (n : ℕ) :
    morbit c (n + 1) = ((morbit c n).mul (morbit c n)).add c := rfl

lemma mandelLoop_eq_interior (c : QC) (fuel : ℕ) :
    ∀ k : ℕ, (∀ m, m < fuel → ((morbit c (k + m + 1)).normSq < 4)) →
      mandelLoop c (morbit c k) k fuel = .interior := by
  induction fuel with
  | zero => intro k _; rfl
  | succ n ih =>
    intro k hlt
    have h0 : (morbit c (k + 1)).normSq < 4 := by
      have := hlt 0 (Nat.succ_pos n)
      simpa using this
    have hstep : ((morbit c k).mul (morbit c k)).add c = morbit c (k + 1) :=
      (morbit_succ c k).symm
    unfold mandelLoop
    simp only [hstep]
    rw [if_neg (not_le.mpr h0)]
    exact ih (k + 1) (fun m hm => by
      have := hlt (m + 1) (by omega)
      have e : k + (m + 1) + 1 = k + 1 + m + 1 := by omega
      rwa [e] at this)

lemma mandelLoop_eq_escaped (c : QC) (fuel : ℕ) :
    ∀ k j : ℕ, j < fuel →
      4 ≤ (morbit c (k + j + 1)).normSq →
      (∀ m, m < j → (morbit c (k + m + 1)).normSq < 4) →
      mandelLoop c (morbit c k) k fuel = .escaped (k + j) (morbit c (k + j + 1)) := by
  induction fuel with
  | zero => intro k j hj _ _; omega
  | succ n ih =>
    intro k j hj hesc hmin
    have hstep : ((morbit c k).mul (morbit c k)).add c = morbit c (k + 1) :=
      (morbit_succ c k).symm
    by_cases h4 : 4 ≤ (morbit c (k + 1)).normSq
    · have hj0 : j = 0 := by
        by_contra hne
        have := hmin 0 (Nat.pos_of_ne_zero hne)
        simp only [Nat.add_zero] at this
        exact absurd h4 (not_le.mpr this)
      subst hj0
      unfold mandelLoop
      simp only [hstep]
      rw [if_pos h4]
      simp
    · have hj0 : j ≠ 0 := by
        rintro rfl
        simp only [Nat.add_zero] at hesc
        exact h4 hesc
      obtain ⟨j', rfl⟩ := Nat.exists_eq_succ_of_ne_zero hj0
      unfold mandelLoop
      simp only [hstep]
      rw [if_neg h4]
      have e1 : k + (j' + 1) + 1 = k + 1 + j' + 1 := by omega
      have e2 : k + (j' + 1) = k + 1 + j' := by omega
      rw [e1, e2]
      exact ih (k + 1) j' (by omega)
        (by rwa [e1] at hesc)
        (fun m hm => by
          have := hmin (m + 1) (by omega)
          have e3 : k + (m + 1) + 1 = k + 1 + m + 1 := by omega
          rwa [e3] at this)

/-- C1: for every pixel `(i, j)` of the `h`-by-`w` grid, `mandelbrot_numpy`
computes `c` as the grid point `x[j] + y[i]*i` on the rectangle centered at
`(center_x, center_y)` with width `zoom_width` and height scaled by `h / w`,
iterates `z := z*z + c` from `z = 0`, and at the first step `k < max_iters`
whose iterate has `z.real^2 + z.imag^2 ≥ 4` it stores the smooth escape value
`k + 1 - log(log|z|)/log(2)` and stops iterating that pixel. -/
theorem mandelbrot_pixel_first_escape
    (h w maxIters : ℕ) (centerX centerY zoomWidth : ℚ) (i : Fin h) (j : Fin w)
    (k : ℕ) (hk : k < maxIters)
    (hesc : 4 ≤ (morbit (mandelC h w centerX centerY zoomWidth i j) (k + 1)).normSq)
    (hfirst : ∀ m, m < k →
      (morbit (mandelC h w centerX centerY zoomWidth i j) (m + 1)).normSq < 4) :
    mandelC h w centerX centerY zoomWidth i j =
      ⟨linspace (centerX - zoomWidth / 2) (centerX + zoomWidth / 2) w j,
       linspace (centerY - zoomWidth * (h : ℚ) / (w : ℚ) / 2)
         (centerY + zoomWidth * (h : ℚ) / (w : ℚ) / 2) h i⟩ ∧
    mandelbrot_numpy h w maxIters centerX centerY zoomWidth i j =
      PixelResult.escaped k
        (morbit (mandelC h w centerX centerY zoomWidth i j) (k + 1)) ∧
    (mandelbrot_numpy h w maxIters centerX centerY zoomWidth i j).value =
      (k : ℝ) + 1 -
        Real.log (Real.log
          ((morbit (mandelC h w centerX centerY zoomWidth i j) (k + 1)).cabs)) /
        Real.log 2 := by
  set c := mandelC h w centerX centerY zoomWidth i j with hc
  have hgrid : c =
      ⟨linspace (centerX - zoomWidth / 2) (centerX + zoomWidth / 2) w j,
       linspace (centerY - zoomWidth * (h : ℚ) / (w : ℚ) / 2)
         (centerY + zoomWidth * (h : ℚ) / (w : ℚ) / 2) h i⟩ := rfl
  have hloop : mandelbrot_numpy h w maxIters centerX centerY zoomWidth i j =
      PixelResult.escaped k (morbit c (k + 1)) := by
    have := mandelLoop_eq_escaped c maxIters 0 k hk
      (by simpa using hesc) (fun m hm => by simpa using hfirst m hm)
    simpa [mandelbrot_numpy, ← hc, morbit] using this
  refine ⟨hgrid, hloop, ?_⟩
  rw [hloop]
  rfl

/-- Witness for C1 at the 1×1 grid centered at `(3, 0)` with zoom width `0`:
the single pixel's grid point is `c = 3`, the first iterate `z = 3` already
has squared modulus `9 ≥ 4`, so the loop escapes at step `k = 0`. -/
theorem mandelbrot_pixel_first_escape_witness :
    mandelbrot_numpy 1 1 3 3 0 0 0 0 =
      PixelResult.escaped 0 (morbit (mandelC 1 1 3 0 0 0 0) 1) :=
  (mandelbrot_pixel_first_escape 1 1 3 3 0 0 (0 : Fin 1) (0 : Fin 1) 0
    (by decide)
    (by norm_num [morbit, mandelC, linspace, QC.mul, QC.add, QC.normSq])
    (fun m hm => absurd hm (Nat.not_lt_zero m))).2.1

/-- C9: a pixel whose orbit stays strictly below the escape threshold for all
`max_iters` iterations keeps the zero initialization of the `result` array, so
its stored value is `0.0` (not `max_iters`); and a pixel escaping at `k = 0`
with `log(log|z|)/log(2) = 1` is stored as `0 + 1 - 1 = 0`, the same color
value as a non-escaping interior pixel. -/
theorem mandelbrot_interior_pixel_zero
    (h w maxIters : ℕ) (centerX centerY zoomWidth : ℚ) (i : Fin h) (j : Fin w)
    (hno : ∀ k, k < maxIters →
      (morbit (mandelC h w centerX centerY zoomWidth i j) (k + 1)).normSq < 4) :
    mandelbrot_numpy h w maxIters centerX centerY zoomWidth i j =
      PixelResult.interior ∧
    (mandelbrot_numpy h w maxIters centerX centerY zoomWidth i j).value = 0 ∧
    ∀ m : ℝ, Real.log (Real.log m) / Real.log 2 = 1 →
      smoothVal 0 m = PixelResult.interior.value := by
  have hloop : mandelbrot_numpy h w maxIters centerX centerY zoomWidth i j =
      PixelResult.interior := by
    have := mandelLoop_eq_interior (mandelC h w centerX centerY zoomWidth i j)
      maxIters 0 (fun m hm => by simpa using hno m hm)
    simpa [mandelbrot_numpy, morbit] using this
  refine ⟨hloop, by rw [hloop]; rfl, fun m hm => ?_⟩
  simp [smoothVal, PixelResult.value, hm]

/-- Witness for C9 at the 1×1 grid centered at the origin with zoom width `0`:
the orbit of `c = 0` is constantly `0`, so the pixel stays interior with value
`0`; and the modulus `exp 2` satisfies `log(log(exp 2))/log(2) = 1`, so a pixel
escaping at step `0` with that modulus would also be stored as `0`. -/
theorem mandelbrot_interior_pixel_zero_witness :
    mandelbrot_numpy 1 1 2 0 0 0 0 0 = PixelResult.interior ∧
    smoothVal 0 (Real.exp 2) = PixelResult.interior.value :=
  ⟨(mandelbrot_interior_pixel_zero 1 1 2 0 0 0 (0 : Fin 1) (0 : Fin 1)
      (by intro k hk
          interval_cases k <;>
            norm_num [morbit, mandelC, linspace, QC.mul, QC.add, QC.normSq])).1,
   (mandelbrot_interior_pixel_zero 1 1 2 0 0 0 (0 : Fin 1) (0 : Fin 1)
      (by intro k hk
          interval_cases k <;>
            norm_num [morbit, mandelC, linspace, QC.mul, QC.add, QC.normSq])).2.2 (Real.exp 2)
      (by rw [Real.log_exp]
          exact div_self (ne_of_gt (Real.log_pos (by norm_num))))⟩

/-- C3: the Lorenz generator integrates by the explicit Euler method with
`sigma = 10`, `rho = 28`, `beta = 8/3`, `dt = 0.01` and initial point
`(0.1, 0, 0)`: for every `i` from `1` to `num_steps - 1`,
`xs[i] = xs[i-1] + sigma*(ys[i-1] - xs[i-1])*dt`,
`ys[i] = ys[i-1] + (xs[i-1]*(rho - zs[i-1]) - ys[i-1])*dt`, and
`zs[i] = zs[i-1] + (xs[i-1]*ys[i-1] - beta*zs[i-1])*dt`. -/
theorem lorenz_euler_step (i : ℕ) (h1 : 1 ≤ i) (h2 : i < numSteps) :
    sigmaL = 10 ∧ rhoL = 28 ∧ betaL = 8 / 3 ∧ dtL = 1 / 100 ∧
    (xs 0, ys 0, zs 0) = (1 / 10, 0, 0) ∧
    xs i = xs (i - 1) + sigmaL * (ys (i - 1) - xs (i - 1)) * dtL ∧
    ys i = ys (i - 1) + (xs (i - 1) * (rhoL - zs (i - 1)) - ys (i - 1)) * dtL ∧
    zs i = zs (i - 1) + (xs (i - 1) * ys (i - 1) - betaL * zs (i - 1)) * dtL := by
  obtain ⟨j, rfl⟩ : ∃ j, i = j + 1 := ⟨i - 1, by omega⟩
  refine ⟨rfl, rfl, rfl, rfl, rfl, ?_, ?_, ?_⟩ <;>
    simp [xs, ys, zs, lorenzTraj]

/-- Witness for C3 at `i = 1`. -/
theorem lorenz_euler_step_witness :
    xs 1 = xs 0 + sigmaL * (ys 0 - xs 0) * dtL ∧
    ys 1 = ys 0 + (xs 0 * (rhoL - zs 0) - ys 0) * dtL ∧
    zs 1 = zs 0 + (xs 0 * ys 0 - betaL * zs 0) * dtL :=
  ⟨(lorenz_euler_step 1 le_rfl (by norm_num [numSteps])).2.2.2.2.2.1,
   (lorenz_euler_step 1 le_rfl (by norm_num [numSteps])).2.2.2.2.2.2.1,
   (lorenz_euler_step 1 le_rfl (by norm_num [numSteps])).2.2.2.2.2.2.2⟩

/-- C5: the Lorenz generator's `xs`, `ys`, `zs` arrays all have length
`num_steps`, and the double pendulum's `x1`, `y1`, `x2`, `y2` arrays all have
the same length as its time grid `t`, whatever angle columns the integrator
returned. -/
theorem trajectory_array_lengths (theta1 theta2 : ℕ → ℝ) :
    xsArr.length = numSteps ∧ ysArr.length = numSteps ∧ zsArr.length = numSteps ∧
    (pend_x1 theta1).length = tArr.length ∧
    (pend_y1 theta1).length = tArr.length ∧
    (pend_x2 theta1 theta2).length = tArr.length ∧
    (pend_y2 theta1 theta2).length = tArr.length := by
  refine ⟨?_, ?_, ?_, ?_, ?_, ?_, ?_⟩ <;>
    simp [xsArr, ysArr, zsArr, pend_x1, pend_y1, pend_x2, pend_y2, tArr]

/-- C8: every generator that declares `fps` and `duration` requests
`frames = fps * duration` frames (`30·30 = 900` for the Mandelbrot zoom and
the Fourier visualization, `60·15 = 900` for the three circle traces and the
sine trace, `30·30 = 900` for the Lorenz, wave-collapse and trig-challenge
animations, `30·10 = 300` for the projectile and `30·15 = 450` for the
triangle challenge); the hyperbolic paraboloid hardcodes `frames = 180` and
declares no `fps`/`duration` pair, so the scheme is vacuous for it; and the
double pendulum's time grid has exactly `int(t_max * fps) = 900` evenly
spaced samples on `[0, 30]`, equal to its frame count. -/
theorem frame_counts :
    mandelFrames = mandelFps * mandelDuration ∧ mandelFrames = 900 ∧
    fourierFrames = fourierFps * fourierDuration ∧ fourierFrames = 900 ∧
    sineFrames = sineFps * sineDuration ∧ sineFrames = 900 ∧
    lorenzFrames = lorenzFps * lorenzDuration ∧ lorenzFrames = 900 ∧
    waveFrames = waveFps * waveDuration ∧ waveFrames = 900 ∧
    trigChallengeFrames = trigChallengeFps * trigChallengeDuration ∧
    trigChallengeFrames = 900 ∧
    sineCosineFrames = sineCosineFps * sineCosineDuration ∧
    sineCosineFrames = 900 ∧
    trigFunctionsFrames = trigFunctionsFps * trigFunctionsDuration ∧
    trigFunctionsFrames = 900 ∧
    advancedTrigFrames = advancedTrigFps * advancedTrigDuration ∧
    advancedTrigFrames = 900 ∧
    projectileFrames = projectileFps * projectileDuration ∧
    projectileFrames = 300 ∧
    triangleFrames = triangleFps * triangleDuration ∧
    triangleFrames = 450 ∧
    hyperbolicFrames = 180 ∧
    pendFrames = 900 ∧ tArr.length = pendFrames ∧
    ∀ i : Fin 900, tArr.getD (i : ℕ) 0 = 30 * (i : ℚ) / 899 := by
  have hp : pendFrames = 900 := by
    rw [pendFrames]
    norm_num
    decide
  refine ⟨rfl, rfl, rfl, rfl, rfl, rfl, rfl, rfl, rfl, rfl, rfl, rfl, rfl, rfl,
    rfl, rfl, rfl, rfl, rfl, rfl, rfl, rfl, rfl, hp, by simp [tArr], ?_⟩
  intro i
  have hi : (i : ℕ) < pendFrames := by rw [hp]; exact i.isLt
  have h1 : tArr.getD (i : ℕ) 0 = linspace 0 30 pendFrames i := by
    simp [tArr, List.getD_eq_getElem?_getD, List.getElem?_map,
      List.getElem?_range, hi]
  rw [h1, linspace, if_neg (by rw [hp]; norm_num), hp]
  norm_num [mul_comm]

lemma fourier_approx_eq_sum (x : ℝ) : ∀ n : ℕ,
    fourier_approx x n = ∑ m ∈ Finset.Icc 1 n, fourier_term m x := by
  intro n
  induction n with
  | zero => simp [fourier_approx]
  | succ k ih =>
    rw [fourier_approx, ih,
      Finset.sum_Icc_succ_top (Nat.succ_le_succ (Nat.zero_le k))]

/-- C4: for every `x` and every `n_terms ≥ 1`, `fourier_approx(x, n_terms)`
equals the partial sum over `n = 1..n_terms` of
`4/(pi*(2n-1)) * sin((2n-1)*x)`; and `square_wave` returns `1` at samples
with `x mod 2*pi < pi` and `-1` otherwise. -/
theorem fourier_square_wave_series (x : ℝ) (nTerms : ℕ) (_hn : 1 ≤ nTerms) :
    fourier_approx x nTerms =
      ∑ m ∈ Finset.Icc 1 nTerms,
        4 / (Real.pi * (2 * (m : ℝ) - 1)) * Real.sin ((2 * (m : ℝ) - 1) * x) ∧
    ∀ y : ℝ, (pymod y (2 * Real.pi) < Real.pi → square_wave y = 1) ∧
      (¬ pymod y (2 * Real.pi) < Real.pi → square_wave y = -1) := by
  refine ⟨?_, fun y => ⟨fun hy => ?_, fun hy => ?_⟩⟩
  · rw [fourier_approx_eq_sum]
    simp [fourier_term]
  · rw [square_wave, if_pos hy]
  · rw [square_wave, if_neg hy]

/-- Witness for C4 at `x = 0`, `n_terms = 1`. -/
theorem fourier_square_wave_series_witness :
    fourier_approx 0 1 =
      ∑ m ∈ Finset.Icc (1 : ℕ) 1,
        4 / (Real.pi * (2 * (m : ℝ) - 1)) * Real.sin ((2 * (m : ℝ) - 1) * 0) ∧
    square_wave 0 = 1 :=
  ⟨(fourier_square_wave_series 0 1 le_rfl).1,
   ((fourier_square_wave_series 0 1 le_rfl).2 0).1
     (by simpa [pymod] using Real.pi_pos)⟩

/-- C6: a generator is dispatched iff its individual flag or `--all` is set,
each dispatched call uses the chosen output directory, and when no selection
flag at all is set the CLI prints help and runs nothing. -/
theorem cli_flag_dispatch (a : Args) :
    (cliMain a = CLIResult.help ↔
      a.pendulum = false ∧ a.lorenz = false ∧ a.mandelbrot = false ∧
      a.quantum = false ∧ a.fourier = false ∧ a.trig = false ∧ a.all = false) ∧
    (anyFlag a = true → cliMain a = CLIResult.ran (dispatch a)) ∧
    (Invocation.pendulum a.output ∈ dispatch a ↔ (a.all || a.pendulum) = true) ∧
    (Invocation.lorenz a.output ∈ dispatch a ↔ (a.all || a.lorenz) = true) ∧
    (Invocation.mandelbrot a.output ∈ dispatch a ↔ (a.all || a.mandelbrot) = true) ∧
    (Invocation.quantum a.output ∈ dispatch a ↔ (a.all || a.quantum) = true) ∧
    (Invocation.fourier a.output a.terms ∈ dispatch a ↔ (a.all || a.fourier) = true) ∧
    (Invocation.trig a.output ∈ dispatch a ↔ (a.all || a.trig) = true) ∧
    (∀ c ∈ dispatch a, c.outputDir = a.output) := by
  obtain ⟨p, l, m, q, f, tg, al, out, tm⟩ := a
  cases al <;> cases p <;> cases l <;> cases m <;> cases q <;> cases f <;>
    cases tg <;> simp [cliMain, anyFlag, dispatch, Invocation.outputDir]

/-- Witness for C6: with no flag the CLI prints help; with only `--pendulum`
it runs exactly the pendulum generator on the chosen output directory. -/
theorem cli_flag_dispatch_witness :
    cliMain ⟨false, false, false, false, false, false, false, "output", 8⟩ =
      CLIResult.help ∧
    cliMain ⟨true, false, false, false, false, false, false, "output", 8⟩ =
      CLIResult.ran [Invocation.pendulum "output"] := by
  constructor
  · exact (cli_flag_dispatch
      ⟨false, false, false, false, false, false, false, "output", 8⟩).1.mpr
      ⟨rfl, rfl, rfl, rfl, rfl, rfl, rfl⟩
  · have h := (cli_flag_dispatch
      ⟨true, false, false, false, false, false, false, "output", 8⟩).2.1 rfl
    simpa [dispatch] using h

/-- C2 counterexample: `create_mandelbrot_animation` (lines 232–238) has no
`try/except` around its save, so with the encoder unavailable it does not fall
back to a GIF — the exception terminates the process; and the projectile
challenge has a second recovery path to a static PNG. -/
theorem save_fallback_counterexample :
    mandelbrotSave false = SaveOutcome.crash ∧
    mandelbrotSave false ≠ SaveOutcome.gif ∧
    projectileSave false false = SaveOutcome.png := by
  decide

/-- C2 (amended): the Fourier, wave-function-collapse, trig-challenge and
circle-trace generators fall back from the MP4/FFMpeg writer to a pillow GIF
when the encoder is unavailable; the projectile and triangle challenges fall
back further to a static PNG if the GIF writer also fails; the Mandelbrot,
Lorenz, double pendulum and hyperbolic paraboloid generators have no fallback
and an encoder failure terminates the process. -/
theorem save_fallback_by_generator :
    fourierSave true = SaveOutcome.mp4 ∧ fourierSave false = SaveOutcome.gif ∧
    waveSave false = SaveOutcome.gif ∧
    trigChallengeSave false = SaveOutcome.gif ∧
    sineCircleSave false = SaveOutcome.gif ∧
    sineCosineSave false = SaveOutcome.gif ∧
    trigFunctionsSave false = SaveOutcome.gif ∧
    advancedTrigSave false = SaveOutcome.gif ∧
    mandelbrotSave false = SaveOutcome.crash ∧
    lorenzSave false = SaveOutcome.crash ∧
    pendulumSave false = SaveOutcome.crash ∧
    hyperbolicSave false = SaveOutcome.crash ∧
    projectileSave false true = SaveOutcome.gif ∧
    projectileSave false false = SaveOutcome.png ∧
    triangleSave false true = SaveOutcome.gif ∧
    triangleSave false false = SaveOutcome.png := by
  decide

/-- C7: `os.makedirs(d, exist_ok=True)` creates the output directory if it is
missing and is a raise-free no-op when it already exists; the CLI performs it
once before dispatching, and each generator taking an `output_dir` parameter
performs it again immediately before writing its output file. -/
theorem output_dir_creation_policy (d : String) (s : Finset String) (hd : d ∈ s)
    (a : Args) (fileOf : Invocation → String) (out : String) (b : Bool) :
    (∀ s' : Finset String, d ∈ makedirs d s') ∧
    makedirs d s = s ∧
    (cliTrace a fileOf).head? = some (FSOp.mkdir a.output) ∧
    (∀ c ∈ dispatch a,
      genSaveTrace c.outputDir (fileOf c) =
        [FSOp.mkdir c.outputDir,
         FSOp.writeFile (pathJoin c.outputDir (fileOf c))]) ∧
    (fourierSaveTrace out b).head? = some (FSOp.mkdir out) ∧
    (mandelbrotSaveTrace out).head? = some (FSOp.mkdir out) :=
  ⟨fun s' => Finset.mem_insert_self d s', Finset.insert_eq_self.mpr hd, rfl,
   fun _ _ => rfl, rfl, rfl⟩

/-- Witness for C7 at a filesystem that already has the default `output`
directory, and a `--pendulum`-only CLI run. -/
theorem output_dir_creation_policy_witness :
    makedirs "output" {"output"} = {"output"} ∧
    (cliTrace ⟨true, false, false, false, false, false, false, "output", 8⟩
        (fun _ => "double_pendulum_tiktok.mp4")).head? =
      some (FSOp.mkdir "output") :=
  ⟨(output_dir_creation_policy "output" {"output"}
      (Finset.mem_singleton_self "output")
      ⟨true, false, false, false, false, false, false, "output", 8⟩
      (fun _ => "double_pendulum_tiktok.mp4") "output" true).2.1,
   (output_dir_creation_policy "output" {"output"}
      (Finset.mem_singleton_self "output")
      ⟨true, false, false, false, false, false, false, "output", 8⟩
      (fun _ => "double_pendulum_tiktok.mp4") "output" true).2.2.1⟩

/-- C10: whenever the weighted superposition is nonzero, the wave function
returned by `generate_superposition` is normalized on the discrete grid: the
sum over all `n_points` samples of `|psi[i]|^2 * (x_max - x_min)/n_points`
equals `1`. -/
theorem generate_superposition_normalized
    (states : ℕ → Fin nPoints → ℂ) (t cp : ℝ)
    (cs : Option ℝ) (ct : Option ℕ)
    (hne : ∃ i : Fin nPoints, psiRaw states t cs ct cp i ≠ 0) :
    ∑ i : Fin nPoints,
      Complex.abs (generate_superposition states t cs ct cp i) ^ 2 *
        ((wxMax - wxMin) / (nPoints : ℝ)) = 1 := by
  obtain ⟨i0, hi0⟩ := hne
  set D : ℝ := (wxMax - wxMin) / (nPoints : ℝ) with hD
  set S : ℝ := ∑ i : Fin nPoints, Complex.abs (psiRaw states t cs ct cp i) ^ 2
    with hS
  have hSpos : 0 < S := by
    refine Finset.sum_pos' (fun i _ => sq_nonneg _)
      ⟨i0, Finset.mem_univ i0, ?_⟩
    exact pow_pos (Complex.abs.pos hi0) 2
  have hdx : (0 : ℝ) < D := by
    rw [hD, wxMax, wxMin, nPoints]
    norm_num
  have hprod : 0 < S * D := mul_pos hSpos hdx
  have hnorm : psiNorm states t cs ct cp = Real.sqrt (S * D) := by
    rw [psiNorm, mul_div_assoc]
  have hNpos : 0 < psiNorm states t cs ct cp := by
    rw [hnorm]
    exact Real.sqrt_pos.mpr hprod
  have hNsq : psiNorm states t cs ct cp ^ 2 = S * D := by
    rw [hnorm]
    exact Real.sq_sqrt hprod.le
  calc ∑ i : Fin nPoints,
        Complex.abs (generate_superposition states t cs ct cp i) ^ 2 * D
      = ∑ i : Fin nPoints,
          Complex.abs (psiRaw states t cs ct cp i) ^ 2 * D /
            psiNorm states t cs ct cp ^ 2 := by
        refine Finset.sum_congr rfl fun i _ => ?_
        rw [generate_superposition, map_div₀, Complex.abs_ofReal,
          abs_of_pos hNpos, div_pow]
        ring
    _ = S * D / psiNorm states t cs ct cp ^ 2 := by
        rw [← Finset.sum_div, ← Finset.sum_mul]
    _ = 1 := by
        rw [hNsq]
        exact div_self hprod.ne'

/-- Witness for C10 at `t = 0`, no collapse in progress, and the constant-one
state samples: the raw superposition is the constant `2.05 ≠ 0`. -/
theorem generate_superposition_normalized_witness :
    ∑ i : Fin nPoints,
      Complex.abs (generate_superposition (fun _ _ => 1) 0 none none 0 i) ^ 2 *
        ((wxMax - wxMin) / (nPoints : ℝ)) = 1 := by
  apply generate_superposition_normalized
  refine ⟨⟨0, by norm_num [nPoints]⟩, ?_⟩
  have hcalc : psiRaw (fun _ _ => 1) 0 none none 0 ⟨0, by norm_num [nPoints]⟩ =
      ((2.05 : ℝ) : ℂ) := by
    simp [psiRaw, psiWeight, maxN, Finset.sum_range_succ, wfWeight, wfWeights]
    norm_num
  rw [hcalc]
  exact Complex.ofReal_ne_zero.mpr (by norm_num)

end ScienceInMotion
